import Mathlib

/-!
Shallow embedding of the pai-packs Slack integration:
`Packs/pai-slack-skill/src/Server.ts` (session store, missed-message
reconciliation, Claude invocation state handling) and
`Packs/Slack/src/MemoryExtractor.ts` / `Packs/Slack/src/TELOSBridge.ts`
(trigger-based memory extraction, partitioned memory store, TELOS sync).

Modelling conventions:
* JavaScript strings are Lean `String`s; the JS `<` / `>` string comparison
  (lexicographic by code unit) is Lean's lexicographic `String` order.
* JS `Map` objects are association lists (`List (key × value)`) with
  insertion-order semantics: `Map.set` replaces in place or appends.
* JS numbers used as confidences are always one of the decimal literals
  0.7, 0.8, 0.85, 0.9, 0.95 and are only ever compared against 0.8; we embed
  them scaled by 100 as `Nat` (0.95 ↦ 95, the threshold 0.8 ↦ 80), which
  preserves the outcome of every comparison the code performs.
* `Date.now()`, `generateId()` and the filesystem are passed in explicitly.
* The falsy-default idioms `x || "0"` and `x || "general"` on strings /
  optional fields are modelled explicitly (empty string and `none` are the
  falsy cases that can occur).
-/

namespace PaiSlack

/-- JS `<` on strings, lexicographic by code unit, on `List Char`. -/
def jsLtChars : List Char → List Char → Bool
  | [], [] => false
  | [], _ :: _ => true
  | _ :: _, [] => false
  | a :: as, b :: bs =>
    if a.val < b.val then true
    else if b.val < a.val then false
    else jsLtChars as bs

/-- JS `a < b` on strings. -/
def jsLt (a b : String) : Bool := jsLtChars a.data b.data

/-- JS `a <= b` on strings (total lexicographic order: `¬ (b < a)`). -/
def jsLe (a b : String) : Bool := !(jsLt b a)

/-- JS whitespace (`\s`, and the set trimmed by `trim`); we model the ASCII
whitespace characters. -/
def isJsSpace (c : Char) : Bool :=
  c = ' ' || c = '\t' || c = '\n' || c = '\r' ||
    c = Char.ofNat 11 || c = Char.ofNat 12

/-- JS `String.prototype.toLowerCase` (ASCII range). -/
def lowerStr (s : String) : String := String.mk (s.data.map Char.toLower)

/-- JS `String.prototype.trim`. -/
def jsTrim (s : String) : String :=
  String.mk (((s.data.dropWhile isJsSpace).reverse.dropWhile isJsSpace).reverse)

/-- JS `haystack.includes(needle)` on char lists. -/
def listContainsSub (needle : List Char) : List Char → Bool
  | [] => needle.isEmpty
  | c :: rest => needle.isPrefixOf (c :: rest) || listContainsSub needle rest

/-- Slack thread message, from `Types.ts` (`SlackThreadMessage`); only the
fields the modelled code reads are kept. -/
structure SlackThreadMessage where
  user : String
  text : String
  ts : String
  bot_id : Option String := none
deriving Repr, DecidableEq

/-- The `msg.ts || "0"` idiom in `filterMissedMessages`: a missing/empty
timestamp is treated as `"0"`. -/
def tsOrZero (m : SlackThreadMessage) : String :=
  if m.ts = "" then "0" else m.ts

/-- Server.ts `filterMissedMessages(messages, lastMessageTs, currentMessageTs)`:
keeps messages whose timestamp is after `lastMessageTs` and before
`currentMessageTs` (JS string comparison). -/
def filterMissedMessages (messages : List SlackThreadMessage)
    (lastMessageTs currentMessageTs : String) : List SlackThreadMessage :=
  messages.filter fun msg =>
    jsLt lastMessageTs (tsOrZero msg) && jsLt (tsOrZero msg) currentMessageTs

/-- Server.ts `ThreadSession` interface. -/
structure ThreadSession where
  sessionId : String
  lastMessageTs : String
deriving Repr, DecidableEq

/-- The in-memory `threadSessions` map (thread key → session), modelled as an
insertion-ordered association list. -/
abbrev Sessions := List (String × ThreadSession)

/-- `threadSessions.get(key)` on the association-list model of a JS `Map`. -/
def getSession : Sessions → String → Option ThreadSession
  | [], _ => none
  | (k', v) :: rest, k => if k' = k then some v else getSession rest k

/-- `threadSessions.set(key, value)`: replace in place if present, else append
(JS `Map` insertion-order semantics). -/
def setSession : Sessions → String → ThreadSession → Sessions
  | [], k, v => [(k, v)]
  | (k', v') :: rest, k, v =>
    if k' = k then (k, v) :: rest else (k', v') :: setSession rest k v

/-- Server.ts `SESSION_EXPIRY` (4 hours in ms). -/
def SESSION_EXPIRY : Int := 4 * 60 * 60 * 1000

/-- Shape of one entry of the persisted `thread-sessions.json` document, as
read back by `loadSessions` (`lastMessageTs` is optional there). -/
structure PersistedSession where
  sessionId : String
  createdAt : Int
  lastMessageTs : Option String
deriving Repr, DecidableEq

/-- The `session.lastMessageTs || "0"` idiom in `loadSessions`. -/
def persistedTsOrZero (ts : Option String) : String :=
  match ts with
  | some s => if s = "" then "0" else s
  | none => "0"

/-- The loop body of Server.ts `loadSessions`: walk the persisted entries and
`set` only those that have not expired (`now - createdAt < SESSION_EXPIRY`). -/
def loadSessionsFrom (acc : Sessions) :
    List (String × PersistedSession) → Int → Sessions
  | [], _ => acc
  | (k, v) :: rest, now =>
    loadSessionsFrom
      (if now - v.createdAt < SESSION_EXPIRY then
        setSession acc k ⟨v.sessionId, persistedTsOrZero v.lastMessageTs⟩
      else acc)
      rest now

/-- Server.ts `loadSessions` at startup: the in-memory map starts empty. -/
def loadSessions (data : List (String × PersistedSession)) (now : Int) :
    Sessions :=
  loadSessionsFrom [] data now

/-- Server.ts `saveSessions`: every entry is written with `createdAt: now`
(the time of the save), not the session's original creation time. -/
def saveSessions (ss : Sessions) (now : Int) :
    List (String × PersistedSession) :=
  ss.map fun p => (p.1, ⟨p.2.sessionId, now, some p.2.lastMessageTs⟩)

/-- The `GET /sessions` listing: `{thread, sessionId, lastMessageTs}` per
entry of the in-memory map. -/
def sessionsListing (ss : Sessions) : List (String × String × String) :=
  ss.map fun p => (p.1, p.2.sessionId, p.2.lastMessageTs)

/-- The `GET /health` field `active_sessions: threadSessions.size`. -/
def activeSessionCount (ss : Sessions) : Nat :=
  ss.length

/-- Outcome of one `claude` CLI run, as `invokeClaude` observes it:
`ok parsedSessionId responseText fullOutput` stands for exit code 0 with
non-empty output (carrying the session id and result text parsed from the
stream), `fail` for a non-zero exit or empty output, and `thrown` for a
thrown error around the spawn/stream handling. -/
inductive AgentOutcome where
  | ok (sessionId : Option String) (responseText : String) (fullOutput : String)
  | fail
  | thrown
deriving Repr, DecidableEq

/-- Fixed apology returned by `invokeClaude` on non-zero exit / empty output. -/
def APOLOGY_FAIL : String := "Sorry, I couldn't process that request right now."

/-- Fixed apology returned by `invokeClaude` when an error is thrown. -/
def APOLOGY_THROWN : String :=
  "Sorry, I encountered an error processing your request."

/-- Server.ts `invokeClaude`, restricted to its effect on the response string
and the session map. On success, if the stream carried a (truthy) session id
different from the existing one, the thread's entry is replaced with
`{sessionId, lastMessageTs: "0"}` and `saveSessions()` is called; the
resolved text is `responseText || fullOutput`. On failure or thrown error the
map is untouched and a fixed apology string is resolved (the promise never
rejects). -/
def invokeClaude (ss : Sessions) (threadKey : String) (outcome : AgentOutcome) :
    String × Sessions :=
  let existingSession := getSession ss threadKey
  match outcome with
  | .ok sessionId responseText fullOutput =>
    let ss' :=
      match sessionId with
      | some sid =>
        if sid ≠ "" ∧ some sid ≠ existingSession.map ThreadSession.sessionId then
          setSession ss threadKey ⟨sid, "0"⟩
        else ss
      | none => ss
    (if responseText = "" then fullOutput else responseText, ss')
  | .fail => (APOLOGY_FAIL, ss)
  | .thrown => (APOLOGY_THROWN, ss)

/-- Server.ts `updateSessionTimestamp`: set `lastMessageTs` of an existing
entry to `messageTs` (and persist); no-op when the thread has no session. -/
def updateSessionTimestamp (ss : Sessions) (threadKey messageTs : String) :
    Sessions :=
  match getSession ss threadKey with
  | some s => setSession ss threadKey ⟨s.sessionId, messageTs⟩
  | none => ss

/-- The session-state path of the `app_mention` handler: invoke Claude (which
always resolves, also on failure), reply with the resolved text, then
unconditionally `updateSessionTimestamp(threadKey, currentMessageTs)`. -/
def handleMention (ss : Sessions) (threadKey currentMessageTs : String)
    (outcome : AgentOutcome) : String × Sessions :=
  let r := invokeClaude ss threadKey outcome
  (r.1, updateSessionTimestamp r.2 threadKey currentMessageTs)

/-! ## Memory extraction engine (`Packs/Slack/src/MemoryExtractor.ts`) -/

/-- Types.ts `MemoryType`. -/
inductive MemoryType where
  | goal | fact | challenge | idea | project | preference
deriving Repr, DecidableEq

/-- Types.ts `MemoryCategory`. -/
inductive MemoryCategory where
  | health | work | family | learning | finance | relationships
  | spirituality | routine | technical | general
deriving Repr, DecidableEq

/-- MemoryExtractor.ts `CATEGORY_KEYWORDS`, in object-literal insertion order
(the iteration order of `Object.entries`). -/
def CATEGORY_KEYWORDS : List (MemoryCategory × List String) :=
  [ (.health, ["health", "exercise", "workout", "diet", "sleep", "meditation",
      "gym", "weight", "fitness", "running"]),
    (.work, ["work", "job", "career", "project", "deadline", "meeting",
      "office", "colleague", "client", "business"]),
    (.family, ["family", "kids", "children", "wife", "husband", "spouse",
      "parent", "daughter", "son", "mother", "father"]),
    (.learning, ["learn", "study", "read", "book", "course", "skill",
      "tutorial", "training", "education"]),
    (.finance, ["money", "budget", "savings", "investment", "financial",
      "income", "expense", "bank", "crypto"]),
    (.relationships, ["friend", "relationship", "partner", "dating", "social",
      "network", "community"]),
    (.spirituality, ["meditation", "prayer", "spiritual", "mindfulness",
      "gratitude", "faith", "soul"]),
    (.routine, ["morning", "evening", "daily", "routine", "habit", "schedule",
      "ritual"]),
    (.technical, ["code", "programming", "software", "api", "database",
      "server", "bug", "feature", "deploy"]),
    (.general, []) ]

/-- MemoryExtractor.ts `TELOS_SYNC_CATEGORIES`. -/
def TELOS_SYNC_CATEGORIES : List MemoryCategory :=
  [.health, .work, .family, .learning, .finance]

/-- The loop of `detectCategory`: first category (skipping `general`) with a
keyword occurring in the lowercased text wins; otherwise `general`. -/
def detectCategoryFrom : List (MemoryCategory × List String) → String →
    MemoryCategory
  | [], _ => .general
  | (cat, kws) :: rest, lowerText =>
    if cat = .general then detectCategoryFrom rest lowerText
    else if kws.any (fun kw => listContainsSub kw.data lowerText.data) then cat
    else detectCategoryFrom rest lowerText

/-- MemoryExtractor.ts `detectCategory`. -/
def detectCategory (text : String) : MemoryCategory :=
  detectCategoryFrom CATEGORY_KEYWORDS (lowerStr text)

/-- The character class `[:\s]` of the trigger regexes (a colon or JS
whitespace; we model the ASCII whitespace characters). -/
def isTrigSep (c : Char) : Bool :=
  c = ':' || c = ' ' || c = '\t' || c = '\n' || c = '\r' ||
    c = Char.ofNat 11 || c = Char.ofNat 12

/-- Case-insensitive literal prefix match (the `/i` flag): if `lit` matches
the beginning of `cs` up to `Char.toLower`, return the rest of `cs`. -/
def stripPrefixCI : List Char → List Char → Option (List Char)
  | [], cs => some cs
  | _ :: _, [] => none
  | l :: ls, c :: cs =>
    if l.toLower = c.toLower then stripPrefixCI ls cs else none

/-- Match one trigger regex `/LIT[:\s]+(.+)/i` at the start of `cs`, with the
regex engine's greedy/backtracking semantics (`.` does not match `'\n'`; when
the separator run reaches the end of input, `[:\s]+` gives back one trailing
non-newline character for `(.+)` to consume). Returns `(m[0], m[1])`. -/
def matchTriggerAt (lit : List Char) (cs : List Char) :
    Option (List Char × List Char) :=
  match stripPrefixCI lit cs with
  | none => none
  | some rest =>
    let run := rest.takeWhile isTrigSep
    let after := rest.drop run.length
    if run.isEmpty then none
    else if !after.isEmpty then
      let cap := after.takeWhile (· ≠ '\n')
      some (cs.take (lit.length + run.length + cap.length), cap)
    else if 2 ≤ run.length ∧ run.getLast? ≠ some '\n' then
      some (cs.take (lit.length + run.length), run.drop (run.length - 1))
    else none

/-- Leftmost match of a trigger regex over the message: scan positions left to
right; at each position try the literal alternatives in preference order (the
greedy optional group `(?:new )?` is the two-alternative case). -/
def findTrigger (alts : List (List Char)) : List Char → Option (List Char × List Char)
  | [] => alts.findSome? (fun lit => matchTriggerAt lit [])
  | c :: cs =>
    match alts.findSome? (fun lit => matchTriggerAt lit (c :: cs)) with
    | some r => some r
    | none => findTrigger alts cs

/-- One entry of `EXPLICIT_PATTERNS`: the literal alternatives of the trigger
regex, the memory type, and the confidence the extractor closure assigns. -/
structure TriggerRule where
  alts : List String
  type : MemoryType
  confidence : Nat
deriving Repr, DecidableEq

/-- MemoryExtractor.ts `EXPLICIT_PATTERNS`, in source order. Every extractor
closure is `(m) => ({ content: m[1].trim(), confidence: c })`; confidences
are scaled by 100 (0.95 ↦ 95). -/
def EXPLICIT_PATTERNS : List TriggerRule :=
  [ ⟨["goal"], .goal, 95⟩,
    ⟨["my new goal is", "my goal is"], .goal, 90⟩,
    ⟨["i want to"], .goal, 70⟩,
    ⟨["remember"], .fact, 95⟩,
    ⟨["fact"], .fact, 95⟩,
    ⟨["note"], .fact, 85⟩,
    ⟨["challenge"], .challenge, 95⟩,
    ⟨["struggling with"], .challenge, 85⟩,
    ⟨["having trouble with"], .challenge, 80⟩,
    ⟨["idea"], .idea, 95⟩,
    ⟨["what if"], .idea, 70⟩,
    ⟨["project"], .project, 95⟩,
    ⟨["working on"], .project, 80⟩,
    ⟨["i prefer"], .preference, 85⟩,
    ⟨["i like"], .preference, 70⟩ ]

/-- Types.ts `MemoryExtraction`. -/
structure MemoryExtraction where
  type : MemoryType
  content : String
  category : Option MemoryCategory
  confidence : Nat
  raw : String
  subject : Option String := none
  syncToTelos : Bool
deriving Repr, DecidableEq

/-- Types.ts `ExtractionResult`. -/
structure ExtractionResult where
  extractions : List MemoryExtraction
  needsConfirmation : List MemoryExtraction
deriving Repr

/-- The `MemoryExtraction` object literal `extractMemories` builds from a
rule and a regex match `(m[0], m[1])`. -/
def mkExtraction (r : TriggerRule) (m : List Char × List Char) :
    MemoryExtraction :=
  let content := jsTrim (String.mk m.2)
  let category := detectCategory content
  { type := r.type
    -- `extracted.content || ""` is the identity on strings
    content := content
    category := some category
    -- `extracted.confidence || 0.8` (the confidences are never 0)
    confidence := if r.confidence = 0 then 80 else r.confidence
    raw := String.mk m.1
    subject := none
    syncToTelos := TELOS_SYNC_CATEGORIES.contains category }

/-- The loop of `extractMemories`: each pattern is evaluated independently
against the message; a match is routed to `extractions` when its confidence
is ≥ 0.8 and to `needsConfirmation` otherwise (pushed in pattern order). -/
def extractMemoriesFrom : List TriggerRule → String → ExtractionResult
  | [], _ => ⟨[], []⟩
  | r :: rest, msg =>
    let res := extractMemoriesFrom rest msg
    match findTrigger (r.alts.map String.data) msg.data with
    | none => res
    | some m =>
      let extraction := mkExtraction r m
      if 80 ≤ extraction.confidence then
        ⟨extraction :: res.extractions, res.needsConfirmation⟩
      else
        ⟨res.extractions, extraction :: res.needsConfirmation⟩

/-- MemoryExtractor.ts `extractMemories`. -/
def extractMemories (userMessage : String) : ExtractionResult :=
  extractMemoriesFrom EXPLICIT_PATTERNS userMessage

/-- Types.ts `StoredMemory`. -/
structure StoredMemory where
  id : String
  type : MemoryType
  content : String
  category : MemoryCategory
  source : String
  channel : String
  userId : String
  date : String
  confidence : Nat
  syncedToTelos : Bool
  telosSyncDate : Option String := none
deriving Repr, DecidableEq

/-- Types.ts `MemoryStore`: five partitions, one ordered collection each. -/
structure MemoryStore where
  goals : List StoredMemory
  facts : List StoredMemory
  challenges : List StoredMemory
  ideas : List StoredMemory
  projects : List StoredMemory
deriving Repr, DecidableEq

/-- Names of the five partitions of the store, used to state which partition
`getTargetArray` selects. -/
inductive PartitionId where
  | goals | facts | challenges | ideas | projects
deriving Repr, DecidableEq

/-- The partition a memory type is routed to by `getTargetArray`. -/
def targetKind : MemoryType → PartitionId
  | .goal => .goals
  | .fact => .facts
  | .preference => .facts
  | .challenge => .challenges
  | .idea => .ideas
  | .project => .projects

/-- Read one partition of the store by name. -/
def getPartition (store : MemoryStore) : PartitionId → List StoredMemory
  | .goals => store.goals
  | .facts => store.facts
  | .challenges => store.challenges
  | .ideas => store.ideas
  | .projects => store.projects

/-- MemoryExtractor.ts `getTargetArray` (the `default` arm, `store.facts`, is
unreachable: `MemoryType` is a closed enumeration). -/
def getTargetArray (store : MemoryStore) : MemoryType → List StoredMemory
  | .goal => store.goals
  | .fact => store.facts
  | .preference => store.facts
  | .challenge => store.challenges
  | .idea => store.ideas
  | .project => store.projects

/-- Writing back the array that `getTargetArray` aliases (the TS code mutates
the selected array in place and then saves the whole store). -/
def setTargetArray (store : MemoryStore) : MemoryType → List StoredMemory →
    MemoryStore
  | .goal, arr => { store with goals := arr }
  | .fact, arr => { store with facts := arr }
  | .preference, arr => { store with facts := arr }
  | .challenge, arr => { store with challenges := arr }
  | .idea, arr => { store with ideas := arr }
  | .project, arr => { store with projects := arr }

/-- The `StoredMemory` record `storeExtraction` builds (with `generateId()`
and the date passed in explicitly). -/
def mkStoredMemory (extraction : MemoryExtraction)
    (channelId userId id date : String) : StoredMemory :=
  { id := id
    type := extraction.type
    content := extraction.content
    -- `extraction.category || "general"`
    category := extraction.category.getD .general
    source := "slack:" ++ channelId
    channel := channelId
    userId := userId
    date := date
    confidence := extraction.confidence
    syncedToTelos := false
    telosSyncDate := none }

/-- MemoryExtractor.ts `storeExtraction`: build the record, push it onto the
partition selected by `getTargetArray` unless a record with the same
lowercased content is already there, save, and return the record (returned
regardless of the duplicate check). -/
def storeExtraction (extraction : MemoryExtraction) (channelId userId : String)
    (id date : String) (store : MemoryStore) : StoredMemory × MemoryStore :=
  let memory := mkStoredMemory extraction channelId userId id date
  let targetArray := getTargetArray store extraction.type
  let isDuplicate :=
    targetArray.any fun m => lowerStr m.content == lowerStr memory.content
  if isDuplicate then (memory, store)
  else (memory, setTargetArray store extraction.type (targetArray ++ [memory]))

/-- The loop of `processMessage`: store every accepted extraction in order,
collecting the returned records (ids supplied by the id stream `ids`). -/
def storeAllExtractions (channelId userId date : String) (ids : Nat → String) :
    List MemoryExtraction → Nat → MemoryStore → List StoredMemory × MemoryStore
  | [], _, store => ([], store)
  | e :: rest, i, store =>
    let r := storeExtraction e channelId userId (ids i) date store
    let rr := storeAllExtractions channelId userId date ids rest (i + 1) r.2
    (r.1 :: rr.1, rr.2)

/-- MemoryExtractor.ts `processMessage`: extract, store all accepted
extractions, and return the stored records plus the pending ones. -/
def processMessage (userMessage channelId userId : String) (date : String)
    (ids : Nat → String) (store : MemoryStore) :
    (List StoredMemory × List MemoryExtraction) × MemoryStore :=
  let result := extractMemories userMessage
  let sr := storeAllExtractions channelId userId date ids result.extractions 0 store
  ((sr.1, result.needsConfirmation), sr.2)

/-! ## TELOS sync bridge (`Packs/Slack/src/TELOSBridge.ts`) -/

/-- TELOSBridge.ts `TYPE_TO_FILE`. -/
def TYPE_TO_FILE : MemoryType → String
  | .goal => "GOALS.md"
  | .fact => "LEARNED.md"
  | .preference => "LEARNED.md"
  | .challenge => "CHALLENGES.md"
  | .idea => "IDEAS.md"
  | .project => "PROJECTS.md"

/-- TELOSBridge.ts `TYPE_TO_SECTION`. -/
def TYPE_TO_SECTION : MemoryType → String
  | .goal => "## Active Goals"
  | .fact => "## Recent Learnings"
  | .preference => "## Recent Learnings"
  | .challenge => "## Active Challenges"
  | .idea => "## Recent Ideas"
  | .project => "## Active Projects"

/-- The TELOS directory as the bridge sees it: whether `_UPGRADE_FLAG.md`
exists, and the target documents (filename → content). -/
structure TelosFS where
  upgradeFlag : Bool
  files : List (String × String)
deriving Repr, DecidableEq

/-- File lookup (`existsSync` + `readFileSync`). -/
def lookupFile : List (String × String) → String → Option String
  | [], _ => none
  | (n, c) :: rest, name => if n = name then some c else lookupFile rest name

/-- File write-back (`writeFileSync` to an existing file). -/
def writeFile : List (String × String) → String → String →
    List (String × String)
  | [], name, content => [(name, content)]
  | (n, c) :: rest, name, content =>
    if n = name then (name, content) :: rest
    else (n, c) :: writeFile rest name content

/-- JS `haystack.indexOf(needle)` on char lists (`-1` becomes `none`; an
empty needle matches at index 0). -/
def idxOfSub (needle : List Char) : List Char → Option Nat
  | [] => if needle.isEmpty then some 0 else none
  | c :: rest =>
    if needle.isPrefixOf (c :: rest) then some 0
    else (idxOfSub needle rest).map (· + 1)

/-- JS `channel.slice(-6)`. -/
def sliceLastSix (s : String) : String :=
  String.mk (s.data.drop (s.data.length - 6))

/-- TELOSBridge.ts `formatMemoryForTelos`. -/
def formatMemoryForTelos (memory : StoredMemory) : String :=
  "- [slack] " ++ memory.content ++ " _(" ++ memory.date ++ ", " ++
    sliceLastSix memory.channel ++ ")_"

/-- The insert-position loop of `appendToTelosFile`, counting how many
characters after the section header's newline are skipped: first the blank
lines, then repeatedly an HTML comment (`<!--` … `-->`, or stop if the
closing `-->` is missing) followed by blank lines. The JS `while` loop is
modelled structurally with a fuel argument: every iteration consumes at
least three characters, so fuel `cs.length` (see `skipCount`) never runs
out before the loop exits. -/
def skipCountFuel : Nat → List Char → Nat
  | 0, _ => 0
  | fuel + 1, cs =>
    let n := (cs.takeWhile (· = '\n')).length
    let cs' := cs.drop n
    if cs'.take 4 = "<!--".data then
      match idxOfSub "-->".data cs' with
      | none => n
      | some i => n + i + 3 + skipCountFuel fuel (cs'.drop (i + 3))
    else n

/-- The insert-position computation of `appendToTelosFile`. -/
def skipCount (cs : List Char) : Nat := skipCountFuel cs.length cs

/-- TELOSBridge.ts `appendToTelosFile`: fail (returning `false`, filesystem
unchanged) when the file or the section header is missing; otherwise insert
the entry after the header, skipping blank lines and leading HTML comments
(or append at end of file when the header has no trailing newline), and
return `true`. -/
def appendToTelosFile (fs : TelosFS) (filename sectionHeader entry : String) :
    Bool × TelosFS :=
  match lookupFile fs.files filename with
  | none => (false, fs)
  | some content =>
    match idxOfSub sectionHeader.data content.data with
    | none => (false, fs)
    | some sectionIndex =>
      match idxOfSub ['\n'] (content.data.drop sectionIndex) with
      | none =>
        (true, { fs with
          files := writeFile fs.files filename (content ++ "\n" ++ entry) })
      | some j =>
        let sectionEnd := sectionIndex + j
        let insertPos :=
          sectionEnd + 1 + skipCount (content.data.drop (sectionEnd + 1))
        let newContent :=
          String.mk (content.data.take insertPos) ++ entry ++ "\n" ++
            String.mk (content.data.drop insertPos)
        (true, { fs with files := writeFile fs.files filename newContent })

/-- Types.ts `TELOSSyncResult`. -/
structure TELOSSyncResult where
  synced : Nat
  skipped : Nat
  errors : List String
deriving Repr, DecidableEq

/-- MemoryExtractor.ts `markAsSynced`'s `markInArray`. -/
def markInArray (ids : List String) (now : String) (arr : List StoredMemory) :
    List StoredMemory :=
  arr.map fun m =>
    if ids.contains m.id then
      { m with syncedToTelos := true, telosSyncDate := some now }
    else m

/-- MemoryExtractor.ts `markAsSynced` (the sync date passed in explicitly). -/
def markAsSynced (store : MemoryStore) (ids : List String) (now : String) :
    MemoryStore :=
  { goals := markInArray ids now store.goals
    facts := markInArray ids now store.facts
    challenges := markInArray ids now store.challenges
    ideas := markInArray ids now store.ideas
    projects := markInArray ids now store.projects }

/-- The per-item error message `syncToTelos` records for a failed append. -/
def syncErrorMsg (memory : StoredMemory) : String :=
  "Failed to sync: " ++ String.mk (memory.content.data.take 40) ++ "..."

/-- The loop of `syncToTelos`: each memory is mapped to a file and section by
its type; failures add a per-item error, successes bump the counter and
collect the id; the filesystem is threaded through the appends. -/
def syncLoop : List StoredMemory → TelosFS → TELOSSyncResult → List String →
    TELOSSyncResult × TelosFS × List String
  | [], fs, res, ids => (res, fs, ids)
  | m :: rest, fs, res, ids =>
    if TYPE_TO_FILE m.type = "" ∨ TYPE_TO_SECTION m.type = "" then
      syncLoop rest fs { res with skipped := res.skipped + 1 } ids
    else
      let entry := formatMemoryForTelos m
      let r := appendToTelosFile fs (TYPE_TO_FILE m.type) (TYPE_TO_SECTION m.type) entry
      if r.1 then
        syncLoop rest r.2 { res with synced := res.synced + 1 } (ids ++ [m.id])
      else
        syncLoop rest r.2 { res with errors := res.errors ++ [syncErrorMsg m] } ids

/-- TELOSBridge.ts `syncToTelos`, called with an explicit batch (the callers
pass either `memoryResult.stored` or, for the CLI default, the list
`getUnsyncedMemories()` computes). Returns the structured result, the updated
TELOS documents and the updated memory store. -/
def syncToTelos (memories : List StoredMemory) (fs : TelosFS)
    (store : MemoryStore) (now : String) :
    TELOSSyncResult × TelosFS × MemoryStore :=
  if !fs.upgradeFlag then
    ({ synced := 0, skipped := 0, errors := ["TELOS upgrade flag not found"] },
      fs, store)
  else if memories.isEmpty then
    ({ synced := 0, skipped := 0, errors := [] }, fs, store)
  else
    let r := syncLoop memories fs { synced := 0, skipped := 0, errors := [] } []
    let store' := if r.2.2 ≠ [] then markAsSynced store r.2.2 now else store
    (r.1, r.2.1, store')

/-- The per-item success flags of a sync batch: whether each memory's
`appendToTelosFile` call succeeds, with the filesystem threaded exactly as in
`syncLoop`. -/
def syncOutcomes : List StoredMemory → TelosFS → List Bool
  | [], _ => []
  | m :: rest, fs =>
    let r := appendToTelosFile fs (TYPE_TO_FILE m.type) (TYPE_TO_SECTION m.type)
      (formatMemoryForTelos m)
    r.1 :: syncOutcomes rest r.2

/-- Number of records in a partition whose content equals the given content
under the case-insensitive comparison `storeExtraction` uses. -/
def countLower (arr : List StoredMemory) (content : String) : Nat :=
  (arr.filter fun m => lowerStr m.content == lowerStr content).length

/-- Test fixture: a stored record with content "the sky is blue". -/
def dupFixtureMemory : StoredMemory :=
  { id := "m0"
    type := .fact
    content := "the sky is blue"
    category := .general
    source := "slack:C"
    channel := "C"
    userId := "U"
    date := "d"
    confidence := 95
    syncedToTelos := false
    telosSyncDate := none }

/-- Test fixture: a store whose facts partition already holds
`dupFixtureMemory`. -/
def dupFixtureStore : MemoryStore :=
  ⟨[], [dupFixtureMemory], [], [], []⟩

/-! ## Helper lemmas -/

theorem jsLtChars_irrefl (cs : List Char) : jsLtChars cs cs = false := by
  induction cs with
  | nil => rfl
  | cons c rest ih => simp [jsLtChars, ih]

theorem jsLt_irrefl (s : String) : jsLt s s = false := by
  simp [jsLt, jsLtChars_irrefl]

theorem getSession_setSession_self (ss : Sessions) (k : String)
    (v : ThreadSession) : getSession (setSession ss k v) k = some v := by
  induction ss with
  | nil => simp [setSession, getSession]
  | cons p rest ih =>
    by_cases h : p.1 = k
    · simp [setSession, getSession, h]
    · simp [setSession, getSession, h, ih]

theorem getSession_setSession_sessionId (ss : Sessions) (k : String)
    (v : ThreadSession) :
    ∃ s, getSession (setSession ss k v) k = some s ∧ s = v :=
  ⟨v, getSession_setSession_self ss k v, rfl⟩

theorem setSession_of_getSession_none (ss : Sessions) (k : String)
    (v : ThreadSession) (h : getSession ss k = none) :
    setSession ss k v = ss ++ [(k, v)] := by
  induction ss with
  | nil => simp [setSession]
  | cons p rest ih =>
    by_cases hk : p.1 = k
    · simp [getSession, hk] at h
    · simp [getSession, hk] at h
      simp [setSession, hk, ih h]

theorem getSession_append (a b : Sessions) (k : String) :
    getSession (a ++ b) k =
      match getSession a k with
      | some v => some v
      | none => getSession b k := by
  induction a with
  | nil => simp [getSession]
  | cons p rest ih =>
    by_cases hk : p.1 = k
    · simp [getSession, hk]
    · simp [getSession, hk, ih]

theorem getSession_eq_none_iff (ss : Sessions) (k : String) :
    getSession ss k = none ↔ ∀ p ∈ ss, p.1 ≠ k := by
  induction ss with
  | nil => simp [getSession]
  | cons p rest ih =>
    by_cases hk : p.1 = k
    · simp [getSession, hk]
    · simp [getSession, hk, ih]

/-! ## C1 -/

/-- C1: `filterMissedMessages` returns exactly the messages of the history
whose timestamp is strictly after the watermark and strictly before the
current message id, in the history's original order (a sublist); timestamps
equal to the watermark or to the current id are excluded, and an empty
history yields an empty result. -/
theorem filterMissedMessages_reconciliation
    (messages : List SlackThreadMessage) (w c : String) :
    (∀ m, m ∈ filterMissedMessages messages w c ↔
      m ∈ messages ∧ jsLt w (tsOrZero m) = true ∧ jsLt (tsOrZero m) c = true)
    ∧ (filterMissedMessages messages w c).Sublist messages
    ∧ (∀ m, tsOrZero m = w ∨ tsOrZero m = c →
        m ∉ filterMissedMessages messages w c)
    ∧ filterMissedMessages [] w c = [] := by
  refine ⟨fun m => ?_, List.filter_sublist _, fun m hm hmem => ?_, rfl⟩
  · simp [filterMissedMessages, List.mem_filter, Bool.and_eq_true, and_assoc]
  · have h := (by
      simpa [filterMissedMessages, List.mem_filter, Bool.and_eq_true,
        and_assoc] using hmem :
      m ∈ messages ∧ jsLt w (tsOrZero m) = true ∧ jsLt (tsOrZero m) c = true)
    rcases hm with h1 | h1 <;> rw [h1] at h <;>
      simp [jsLt_irrefl] at h

/-- C1 witness: the reconciliation property evaluated on a concrete
four-message history with watermark "5" and current id "7". -/
theorem filterMissedMessages_reconciliation_witness :
    (⟨"u", "c", "6", none⟩ : SlackThreadMessage) ∈
        filterMissedMessages
          [⟨"u", "a", "3", none⟩, ⟨"u", "b", "5", none⟩,
            ⟨"u", "c", "6", none⟩, ⟨"u", "d", "7", none⟩] "5" "7"
    ∧ (⟨"u", "b", "5", none⟩ : SlackThreadMessage) ∉
        filterMissedMessages
          [⟨"u", "a", "3", none⟩, ⟨"u", "b", "5", none⟩,
            ⟨"u", "c", "6", none⟩, ⟨"u", "d", "7", none⟩] "5" "7" := by
  refine ⟨?_, ?_⟩
  · exact ((filterMissedMessages_reconciliation
      [⟨"u", "a", "3", none⟩, ⟨"u", "b", "5", none⟩,
        ⟨"u", "c", "6", none⟩, ⟨"u", "d", "7", none⟩] "5" "7").1
      ⟨"u", "c", "6", none⟩).mpr (by decide)
  · exact (filterMissedMessages_reconciliation
      [⟨"u", "a", "3", none⟩, ⟨"u", "b", "5", none⟩,
        ⟨"u", "c", "6", none⟩, ⟨"u", "d", "7", none⟩] "5" "7").2.2.1
      ⟨"u", "b", "5", none⟩ (Or.inl (by decide))

/-! ## C2 -/

/-- C2 counterexample: with an existing session `{sessionId := "sess-a",
lastMessageTs := "5"}` for the thread, a failed agent invocation (non-zero
exit / empty output) under current message id "7" yields the fixed apology
string, but the stored watermark is advanced to "7" — not left at "5" as the
claim states: `invokeClaude` resolves (never rejects) on failure, so the
handler still runs `updateSessionTimestamp`. -/
theorem invokeFailure_watermark_advances_cex :
    (handleMention [("C1_171.5", ⟨"sess-a", "5"⟩)] "C1_171.5" "7" .fail).1
      = APOLOGY_FAIL
    ∧ getSession
        (handleMention [("C1_171.5", ⟨"sess-a", "5"⟩)] "C1_171.5" "7" .fail).2
        "C1_171.5" = some ⟨"sess-a", "7"⟩
    ∧ getSession [("C1_171.5", ⟨"sess-a", "5"⟩)] "C1_171.5"
        = some ⟨"sess-a", "5"⟩
    ∧ (⟨"sess-a", "7"⟩ : ThreadSession) ≠ ⟨"sess-a", "5"⟩ := by
  refine ⟨rfl, rfl, rfl, by decide⟩

/-- C2 (amended): on agent invocation failure (non-zero exit, empty output,
or a thrown error) the caller receives a fixed apology string, but for a
thread with an existing session the stored watermark is then advanced to the
current message id by the handler's unconditional timestamp update, rather
than left unchanged. -/
theorem invokeFailure_apology_watermark_advance (ss : Sessions)
    (k cur : String) (s : ThreadSession) (h : getSession ss k = some s) :
    ((handleMention ss k cur .fail).1 = APOLOGY_FAIL
      ∧ getSession (handleMention ss k cur .fail).2 k
          = some ⟨s.sessionId, cur⟩)
    ∧ ((handleMention ss k cur .thrown).1 = APOLOGY_THROWN
      ∧ getSession (handleMention ss k cur .thrown).2 k
          = some ⟨s.sessionId, cur⟩) := by
  constructor <;>
    exact ⟨rfl, by
      simp only [handleMention, invokeClaude, updateSessionTimestamp, h]
      exact getSession_setSession_self ss k _⟩

/-- C2 witness: the amended statement evaluated on a concrete session map. -/
theorem invokeFailure_apology_watermark_advance_witness :
    getSession [("k", ⟨"sess-a", "5"⟩)] "k" = some ⟨"sess-a", "5"⟩
    ∧ (((handleMention [("k", ⟨"sess-a", "5"⟩)] "k" "7" .fail).1 = APOLOGY_FAIL
      ∧ getSession (handleMention [("k", ⟨"sess-a", "5"⟩)] "k" "7" .fail).2 "k"
          = some ⟨"sess-a", "7"⟩)
    ∧ ((handleMention [("k", ⟨"sess-a", "5"⟩)] "k" "7" .thrown).1
          = APOLOGY_THROWN
      ∧ getSession
          (handleMention [("k", ⟨"sess-a", "5"⟩)] "k" "7" .thrown).2 "k"
          = some ⟨"sess-a", "7"⟩)) :=
  ⟨rfl, invokeFailure_apology_watermark_advance [("k", ⟨"sess-a", "5"⟩)]
    "k" "7" ⟨"sess-a", "5"⟩ rfl⟩

/-! ## C3 -/

/-- C3 counterexample: the session-id storage step inside `invokeClaude`
moves the stored watermark backward. With an existing session
`{sessionId := "sess-a", lastMessageTs := "5"}`, a successful invocation
whose stream carries the rotated session id "sess-b" replaces the entry with
`lastMessageTs := "0"` and persists it ("0" is strictly below "5" in the
message-id order), so the watermark is not non-decreasing across every
operation as the claim states. -/
theorem sessionRotation_watermark_reset_cex :
    getSession
      (invokeClaude [("k", ⟨"sess-a", "5"⟩)] "k"
        (.ok (some "sess-b") "done" "out")).2 "k" = some ⟨"sess-b", "0"⟩
    ∧ jsLt "0" "5" = true
    ∧ saveSessions
        (invokeClaude [("k", ⟨"sess-a", "5"⟩)] "k"
          (.ok (some "sess-b") "done" "out")).2 1000
        = [("k", ⟨"sess-b", 1000, some "0"⟩)] := by
  refine ⟨rfl, rfl, rfl⟩

/-- C3 (amended): across a complete handler turn the watermark never moves
backward — whatever the agent outcome, a thread that had a session ends the
turn with its watermark equal to the current message id, which is no smaller
than the previous watermark whenever the current message is not older than
it; the intermediate session-id storage step may however transiently reset
the stored and persisted watermark to "0" (the counterexample), pending the
handler's final timestamp update. -/
theorem handleMention_watermark_monotone (ss : Sessions) (k cur : String)
    (outcome : AgentOutcome) (s : ThreadSession)
    (h : getSession ss k = some s)
    (hle : jsLe s.lastMessageTs cur = true) :
    ∃ s', getSession (handleMention ss k cur outcome).2 k = some s'
      ∧ s'.lastMessageTs = cur
      ∧ jsLe s.lastMessageTs s'.lastMessageTs = true := by
  have hmid : ∃ s₁, getSession (invokeClaude ss k outcome).2 k = some s₁ := by
    cases outcome with
    | ok sid r f =>
      cases sid with
      | none => exact ⟨s, by simpa [invokeClaude] using h⟩
      | some sidv =>
        by_cases hc : sidv ≠ "" ∧
            some sidv ≠ (getSession ss k).map ThreadSession.sessionId
        · exact ⟨⟨sidv, "0"⟩, by
            simp only [invokeClaude, if_pos hc]
            exact getSession_setSession_self ss k _⟩
        · exact ⟨s, by simp only [invokeClaude, if_neg hc]; exact h⟩
    | fail => exact ⟨s, by simpa [invokeClaude] using h⟩
    | thrown => exact ⟨s, by simpa [invokeClaude] using h⟩
  obtain ⟨s₁, hs₁⟩ := hmid
  refine ⟨⟨s₁.sessionId, cur⟩, ?_, rfl, hle⟩
  simp only [handleMention, updateSessionTimestamp, hs₁]
  exact getSession_setSession_self _ k _

/-- C3 witness: the amended monotonicity statement evaluated on a concrete
session map, current id "7" and a session-rotating successful outcome. -/
theorem handleMention_watermark_monotone_witness :
    getSession [("k", ⟨"sess-a", "5"⟩)] "k" = some ⟨"sess-a", "5"⟩
    ∧ jsLe "5" "7" = true
    ∧ ∃ s', getSession
        (handleMention [("k", ⟨"sess-a", "5"⟩)] "k" "7"
          (.ok (some "sess-b") "done" "out")).2 "k" = some s'
      ∧ s'.lastMessageTs = "7"
      ∧ jsLe "5" s'.lastMessageTs = true :=
  ⟨rfl, rfl, handleMention_watermark_monotone [("k", ⟨"sess-a", "5"⟩)] "k" "7"
    (.ok (some "sess-b") "done" "out") ⟨"sess-a", "5"⟩ rfl rfl⟩

/-! ## C6 and C8: load/save round behavior -/

theorem loadSessionsFrom_eq (data : List (String × PersistedSession))
    (now : Int) (acc : Sessions)
    (hnd : (data.map Prod.fst).Nodup)
    (hdisj : ∀ p ∈ data, getSession acc p.1 = none) :
    loadSessionsFrom acc data now =
      acc ++ (data.filter
          (fun p => decide (now - p.2.createdAt < SESSION_EXPIRY))).map
        (fun p => (p.1, ⟨p.2.sessionId, persistedTsOrZero p.2.lastMessageTs⟩)) := by
  induction data generalizing acc with
  | nil => simp [loadSessionsFrom]
  | cons p rest ih =>
    obtain ⟨k, v⟩ := p
    have hnd2 : k ∉ rest.map Prod.fst ∧ (rest.map Prod.fst).Nodup := by
      rw [List.map_cons] at hnd
      exact List.nodup_cons.mp hnd
    have hk_notin : ∀ q ∈ rest, q.1 ≠ k := by
      intro q hq hqk
      exact hnd2.1 (hqk ▸ List.mem_map_of_mem Prod.fst hq)
    have hnd' : (rest.map Prod.fst).Nodup := hnd2.2
    by_cases hfresh : now - v.createdAt < SESSION_EXPIRY
    · have hset : setSession acc k ⟨v.sessionId, persistedTsOrZero v.lastMessageTs⟩
          = acc ++ [(k, ⟨v.sessionId, persistedTsOrZero v.lastMessageTs⟩)] :=
        setSession_of_getSession_none acc k _ (hdisj (k, v) (by simp))
      have hdisj' : ∀ q ∈ rest,
          getSession (acc ++ [(k, ⟨v.sessionId, persistedTsOrZero v.lastMessageTs⟩)]) q.1
            = none := by
        intro q hq
        rw [getSession_append]
        have h1 : getSession acc q.1 = none := hdisj q (by simp [hq])
        have hne : k ≠ q.1 := Ne.symm (hk_notin q hq)
        rw [h1]
        simp [getSession, hne]
      calc loadSessionsFrom acc ((k, v) :: rest) now
          = loadSessionsFrom
              (acc ++ [(k, ⟨v.sessionId, persistedTsOrZero v.lastMessageTs⟩)])
              rest now := by
            simp [loadSessionsFrom, hfresh, hset]
        _ = _ := by
            rw [ih _ hnd' hdisj']
            simp [hfresh, List.append_assoc]
    · calc loadSessionsFrom acc ((k, v) :: rest) now
          = loadSessionsFrom acc rest now := by
            simp [loadSessionsFrom, hfresh]
        _ = _ := by
            rw [ih _ hnd' (fun q hq => hdisj q (by simp [hq]))]
            simp [hfresh]

/-- C6: a persisted session entry whose age `now - createdAt` meets or
exceeds the 4-hour expiry window is absent from the in-memory map built by
`loadSessions`: it is not found by lookup, it does not appear in the
`GET /sessions` listing, and the `GET /health` active-session count counts
exactly the non-expired entries. -/
theorem loadSessions_drops_expired (data : List (String × PersistedSession))
    (now : Int) (k : String) (v : PersistedSession)
    (hnd : (data.map Prod.fst).Nodup)
    (hmem : (k, v) ∈ data)
    (hexp : SESSION_EXPIRY ≤ now - v.createdAt) :
    getSession (loadSessions data now) k = none
    ∧ (∀ e ∈ sessionsListing (loadSessions data now), e.1 ≠ k)
    ∧ activeSessionCount (loadSessions data now)
        = (data.filter
            (fun p => decide (now - p.2.createdAt < SESSION_EXPIRY))).length := by
  have heq : loadSessions data now =
      (data.filter (fun p => decide (now - p.2.createdAt < SESSION_EXPIRY))).map
        (fun p => (p.1, ⟨p.2.sessionId, persistedTsOrZero p.2.lastMessageTs⟩)) := by
    have := loadSessionsFrom_eq data now [] hnd (fun p _ => rfl)
    simpa [loadSessions] using this
  have hkeys : ∀ q ∈ data.filter
      (fun p => decide (now - p.2.createdAt < SESSION_EXPIRY)), q.1 ≠ k := by
    intro q hq hqk
    have hqdata : q ∈ data := List.mem_of_mem_filter hq
    have hqfresh : now - q.2.createdAt < SESSION_EXPIRY := by
      have := List.of_mem_filter hq
      simpa using this
    have : q = (k, v) :=
      List.inj_on_of_nodup_map hnd hqdata hmem (by simpa using hqk)
    rw [this] at hqfresh
    simp at hqfresh
    omega
  refine ⟨?_, ?_, ?_⟩
  · rw [heq, getSession_eq_none_iff]
    intro p hp
    obtain ⟨q, hq, hpq⟩ := List.mem_map.mp hp
    have := hkeys q hq
    simpa [← hpq] using this
  · intro e he
    rw [heq] at he
    simp only [sessionsListing, List.map_map, List.mem_map] at he
    obtain ⟨q, hq, rfl⟩ := he
    simpa using hkeys q hq
  · rw [heq]
    simp [activeSessionCount]

/-- C6 witness: with one entry aged exactly the expiry window and one fresh
entry, the expired one is dropped and the health count is 1. -/
theorem loadSessions_drops_expired_witness :
    getSession
      (loadSessions [("a", ⟨"s1", 0, some "3"⟩), ("b", ⟨"s2", 1, none⟩)]
        SESSION_EXPIRY) "a" = none
    ∧ activeSessionCount
      (loadSessions [("a", ⟨"s1", 0, some "3"⟩), ("b", ⟨"s2", 1, none⟩)]
        SESSION_EXPIRY) = 1 := by
  have h := loadSessions_drops_expired
    [("a", ⟨"s1", 0, some "3"⟩), ("b", ⟨"s2", 1, none⟩)] SESSION_EXPIRY
    "a" ⟨"s1", 0, some "3"⟩ (by decide) (by decide) (by decide)
  exact ⟨h.1, h.2.2.trans (by decide)⟩

/-- C8: `saveSessions` stamps every persisted entry's `createdAt` with the
time of the save (not the session's creation time); consequently a session
map saved at `t₁` and reloaded at any `t₂` within the expiry window survives
in full — whatever the sessions' real age — with only the `|| "0"`
empty-timestamp default applied. -/
theorem saveSessions_refresh_roundtrip (ss : Sessions) (t₁ t₂ : Int)
    (hnd : (ss.map Prod.fst).Nodup) (hwin : t₂ - t₁ < SESSION_EXPIRY) :
    (∀ p ∈ saveSessions ss t₁, p.2.createdAt = t₁)
    ∧ loadSessions (saveSessions ss t₁) t₂
        = ss.map (fun p => (p.1,
            ⟨p.2.sessionId, persistedTsOrZero (some p.2.lastMessageTs)⟩)) := by
  have hcreated : ∀ p ∈ saveSessions ss t₁, p.2.createdAt = t₁ := by
    intro p hp
    obtain ⟨q, hq, rfl⟩ := List.mem_map.mp hp
    rfl
  refine ⟨hcreated, ?_⟩
  have hkeys : (saveSessions ss t₁).map Prod.fst = ss.map Prod.fst := by
    simp [saveSessions, List.map_map]
  have hnd' : ((saveSessions ss t₁).map Prod.fst).Nodup := by
    rw [hkeys]; exact hnd
  have heq := loadSessionsFrom_eq (saveSessions ss t₁) t₂ [] hnd'
    (fun p _ => rfl)
  have hfilter : (saveSessions ss t₁).filter
      (fun p => decide (t₂ - p.2.createdAt < SESSION_EXPIRY))
      = saveSessions ss t₁ := by
    apply List.filter_eq_self.mpr
    intro p hp
    rw [hcreated p hp]
    simpa using hwin
  rw [loadSessions, heq, hfilter]
  simp [saveSessions, List.map_map]

/-- C8 witness: a two-session map (one with an empty stored timestamp) saved
at time 9999999 and reloaded just inside the window survives in full, with
`createdAt` stamped by the save. -/
theorem saveSessions_refresh_roundtrip_witness :
    (∀ p ∈ saveSessions [("k1", ⟨"sa", "5"⟩), ("k2", ⟨"sb", ""⟩)] 9999999,
      p.2.createdAt = 9999999)
    ∧ loadSessions
        (saveSessions [("k1", ⟨"sa", "5"⟩), ("k2", ⟨"sb", ""⟩)] 9999999)
        (9999999 + SESSION_EXPIRY - 1)
      = [("k1", ⟨"sa", "5"⟩), ("k2", ⟨"sb", "0"⟩)] := by
  have h := saveSessions_refresh_roundtrip
    [("k1", ⟨"sa", "5"⟩), ("k2", ⟨"sb", ""⟩)] 9999999
    (9999999 + SESSION_EXPIRY - 1) (by decide) (by decide)
  exact ⟨h.1, h.2.trans (by decide)⟩

/-! ## Extraction and store lemmas -/

theorem extractMemoriesFrom_cons (r : TriggerRule) (rest : List TriggerRule)
    (msg : String) :
    extractMemoriesFrom (r :: rest) msg =
      match findTrigger (r.alts.map String.data) msg.data with
      | none => extractMemoriesFrom rest msg
      | some m =>
        if 80 ≤ (mkExtraction r m).confidence then
          ⟨mkExtraction r m :: (extractMemoriesFrom rest msg).extractions,
            (extractMemoriesFrom rest msg).needsConfirmation⟩
        else
          ⟨(extractMemoriesFrom rest msg).extractions,
            mkExtraction r m :: (extractMemoriesFrom rest msg).needsConfirmation⟩ :=
  rfl

theorem extractMemoriesFrom_accepted_conf (rules : List TriggerRule)
    (msg : String) :
    ∀ e ∈ (extractMemoriesFrom rules msg).extractions, 80 ≤ e.confidence := by
  induction rules with
  | nil => intro e he; simp [extractMemoriesFrom] at he
  | cons r rest ih =>
    intro e he
    cases hft : findTrigger (r.alts.map String.data) msg.data with
    | none =>
      simp only [extractMemoriesFrom_cons, hft] at he
      exact ih e he
    | some m =>
      simp only [extractMemoriesFrom_cons, hft] at he
      by_cases hc : 80 ≤ (mkExtraction r m).confidence
      · rw [if_pos hc] at he
        rcases List.mem_cons.mp he with h1 | h1
        · rw [h1]; exact hc
        · exact ih e h1
      · rw [if_neg hc] at he
        exact ih e he

theorem extractMemoriesFrom_pending_conf (rules : List TriggerRule)
    (msg : String) :
    ∀ e ∈ (extractMemoriesFrom rules msg).needsConfirmation,
      e.confidence < 80 := by
  induction rules with
  | nil => intro e he; simp [extractMemoriesFrom] at he
  | cons r rest ih =>
    intro e he
    cases hft : findTrigger (r.alts.map String.data) msg.data with
    | none =>
      simp only [extractMemoriesFrom_cons, hft] at he
      exact ih e he
    | some m =>
      simp only [extractMemoriesFrom_cons, hft] at he
      by_cases hc : 80 ≤ (mkExtraction r m).confidence
      · rw [if_pos hc] at he
        exact ih e he
      · rw [if_neg hc] at he
        rcases List.mem_cons.mp he with h1 | h1
        · rw [h1]; omega
        · exact ih e h1

theorem getTargetArray_eq (store : MemoryStore) (t : MemoryType) :
    getTargetArray store t = getPartition store (targetKind t) := by
  cases t <;> rfl

theorem getPartition_setTargetArray (store : MemoryStore) (t : MemoryType)
    (arr : List StoredMemory) (p : PartitionId) :
    getPartition (setTargetArray store t arr) p =
      if p = targetKind t then arr else getPartition store p := by
  cases t <;> cases p <;> simp [setTargetArray, getPartition, targetKind]

theorem storeExtraction_fst (e : MemoryExtraction) (ch uid id date : String)
    (store : MemoryStore) :
    (storeExtraction e ch uid id date store).1 =
      mkStoredMemory e ch uid id date := by
  simp only [storeExtraction]
  split <;> rfl

theorem storeExtraction_partition_mono (e : MemoryExtraction)
    (ch uid id date : String) (store : MemoryStore) (p : PartitionId) :
    ∃ extra, getPartition ((storeExtraction e ch uid id date store).2) p =
        getPartition store p ++ extra
      ∧ ∀ m ∈ extra, m.content = e.content ∧ m.type = e.type := by
  simp only [storeExtraction]
  split
  · exact ⟨[], by simp⟩
  · rw [getPartition_setTargetArray]
    by_cases hp : p = targetKind e.type
    · refine ⟨[mkStoredMemory e ch uid id date], ?_, ?_⟩
      · rw [if_pos hp, getTargetArray_eq, hp]
      · intro m hm
        simp at hm
        rw [hm]
        exact ⟨rfl, rfl⟩
    · exact ⟨[], by simp [if_neg hp]⟩

theorem storeExtraction_persists (e : MemoryExtraction)
    (ch uid id date : String) (store : MemoryStore) :
    ∃ m ∈ getPartition ((storeExtraction e ch uid id date store).2)
        (targetKind e.type), lowerStr m.content = lowerStr e.content := by
  simp only [storeExtraction]
  split
  · next hdup =>
    rw [getTargetArray_eq] at hdup
    obtain ⟨m, hm, hbeq⟩ := List.any_eq_true.mp hdup
    exact ⟨m, hm, by simpa [mkStoredMemory] using hbeq⟩
  · refine ⟨mkStoredMemory e ch uid id date, ?_, rfl⟩
    rw [getPartition_setTargetArray, if_pos rfl, getTargetArray_eq]
    simp

theorem storeAll_partition_mono (ch uid date : String) (ids : Nat → String)
    (es : List MemoryExtraction) (i : Nat) (store : MemoryStore)
    (p : PartitionId) :
    ∃ extra,
      getPartition (storeAllExtractions ch uid date ids es i store).2 p =
        getPartition store p ++ extra
      ∧ ∀ m ∈ extra, ∃ e ∈ es, m.content = e.content ∧ m.type = e.type := by
  induction es generalizing i store with
  | nil => exact ⟨[], by simp [storeAllExtractions]⟩
  | cons e rest ih =>
    obtain ⟨x1, hx1, hx1m⟩ :=
      storeExtraction_partition_mono e ch uid (ids i) date store p
    obtain ⟨x2, hx2, hx2m⟩ :=
      ih (i + 1) (storeExtraction e ch uid (ids i) date store).2
    refine ⟨x1 ++ x2, ?_, ?_⟩
    · simp only [storeAllExtractions]
      rw [hx2, hx1, List.append_assoc]
    · intro m hm
      rcases List.mem_append.mp hm with h1 | h1
      · exact ⟨e, by simp, hx1m m h1⟩
      · obtain ⟨e', he', hc⟩ := hx2m m h1
        exact ⟨e', by simp [he'], hc⟩

theorem storeAll_persists (ch uid date : String) (ids : Nat → String)
    (es : List MemoryExtraction) (i : Nat) (store : MemoryStore)
    (e : MemoryExtraction) (he : e ∈ es) :
    ∃ m ∈ getPartition (storeAllExtractions ch uid date ids es i store).2
        (targetKind e.type), lowerStr m.content = lowerStr e.content := by
  induction es generalizing i store with
  | nil => simp at he
  | cons e0 rest ih =>
    rcases List.mem_cons.mp he with h1 | h1
    · subst h1
      obtain ⟨m, hm, hml⟩ :=
        storeExtraction_persists e ch uid (ids i) date store
      obtain ⟨extra, hx, _⟩ := storeAll_partition_mono ch uid date ids rest
        (i + 1) (storeExtraction e ch uid (ids i) date store).2
        (targetKind e.type)
      refine ⟨m, ?_, hml⟩
      simp only [storeAllExtractions]
      rw [hx]
      exact List.mem_append_left _ hm
    · exact ih (i + 1) _ h1

theorem storeAll_fst_content (ch uid date : String) (ids : Nat → String)
    (es : List MemoryExtraction) (i : Nat) (store : MemoryStore) :
    (storeAllExtractions ch uid date ids es i store).1.map
        StoredMemory.content = es.map MemoryExtraction.content := by
  induction es generalizing i store with
  | nil => rfl
  | cons e rest ih =>
    simp only [storeAllExtractions, List.map_cons, storeExtraction_fst]
    rw [ih]
    rfl

theorem storeAll_fst_type (ch uid date : String) (ids : Nat → String)
    (es : List MemoryExtraction) (i : Nat) (store : MemoryStore) :
    (storeAllExtractions ch uid date ids es i store).1.map StoredMemory.type
      = es.map MemoryExtraction.type := by
  induction es generalizing i store with
  | nil => rfl
  | cons e rest ih =>
    simp only [storeAllExtractions, List.map_cons, storeExtraction_fst]
    rw [ih]
    rfl

theorem countLower_append (a b : List StoredMemory) (c : String) :
    countLower (a ++ b) c = countLower a c + countLower b c := by
  simp [countLower, List.filter_append]

theorem countLower_eq_zero_iff (arr : List StoredMemory) (c : String) :
    countLower arr c = 0 ↔
      ∀ m ∈ arr, (lowerStr m.content == lowerStr c) = false := by
  constructor
  · intro h m hm
    rw [countLower, List.length_eq_zero] at h
    simpa using List.filter_eq_nil_iff.mp h m hm
  · intro h
    rw [countLower, List.length_eq_zero, List.filter_eq_nil_iff]
    intro m hm
    simp [h m hm]

theorem storeExtraction_snd_not_dup (e : MemoryExtraction)
    (ch uid id date : String) (store : MemoryStore)
    (h : ∀ m ∈ getPartition store (targetKind e.type),
      (lowerStr m.content == lowerStr e.content) = false) :
    (storeExtraction e ch uid id date store).2
      = setTargetArray store e.type
          (getPartition store (targetKind e.type)
            ++ [mkStoredMemory e ch uid id date]) := by
  simp only [storeExtraction, getTargetArray_eq]
  have hfun : (fun (m : StoredMemory) =>
      lowerStr m.content == lowerStr (mkStoredMemory e ch uid id date).content)
      = fun m => lowerStr m.content == lowerStr e.content := rfl
  rw [hfun]
  have hany : ((getPartition store (targetKind e.type)).any
      fun m => lowerStr m.content == lowerStr e.content) = false := by
    rw [List.any_eq_false]
    intro m hm
    simp [h m hm]
  rw [hany]
  simp

theorem storeExtraction_snd_dup (e : MemoryExtraction)
    (ch uid id date : String) (store : MemoryStore)
    (h : ∃ m ∈ getPartition store (targetKind e.type),
      (lowerStr m.content == lowerStr e.content) = true) :
    (storeExtraction e ch uid id date store).2 = store := by
  simp only [storeExtraction, getTargetArray_eq]
  have hfun : (fun (m : StoredMemory) =>
      lowerStr m.content == lowerStr (mkStoredMemory e ch uid id date).content)
      = fun m => lowerStr m.content == lowerStr e.content := rfl
  rw [hfun]
  rw [List.any_eq_true.mpr h]
  simp

/-! ## C4 -/

/-- C4: every extraction the trigger matcher produces with confidence ≥ 0.8
is accepted and persisted by `processMessage` (its content is present, up to
the case-insensitive comparison, in the partition its kind targets), and
every extraction with confidence < 0.8 is returned in the
needs-confirmation list and never persisted: all records added to any
partition come from accepted extractions, regardless of kind. -/
theorem extraction_confidence_routing (msg ch uid date : String)
    (ids : Nat → String) (store : MemoryStore) :
    (∀ e ∈ (extractMemories msg).extractions, 80 ≤ e.confidence)
    ∧ (∀ e ∈ (extractMemories msg).needsConfirmation, e.confidence < 80)
    ∧ (∀ e ∈ (extractMemories msg).extractions,
        ∃ m ∈ getPartition (processMessage msg ch uid date ids store).2
            (targetKind e.type),
          lowerStr m.content = lowerStr e.content)
    ∧ (processMessage msg ch uid date ids store).1.2
        = (extractMemories msg).needsConfirmation
    ∧ (∀ p, ∀ m ∈ getPartition (processMessage msg ch uid date ids store).2 p,
        m ∈ getPartition store p
        ∨ ∃ e ∈ (extractMemories msg).extractions,
            m.content = e.content ∧ m.type = e.type) := by
  refine ⟨extractMemoriesFrom_accepted_conf _ msg,
    extractMemoriesFrom_pending_conf _ msg, ?_, rfl, ?_⟩
  · intro e he
    exact storeAll_persists ch uid date ids
      (extractMemories msg).extractions 0 store e he
  · intro p m hm
    obtain ⟨extra, hx, hxm⟩ := storeAll_partition_mono ch uid date ids
      (extractMemories msg).extractions 0 store p
    rw [show (processMessage msg ch uid date ids store).2
        = (storeAllExtractions ch uid date ids
            (extractMemories msg).extractions 0 store).2 from rfl,
      hx] at hm
    rcases List.mem_append.mp hm with h1 | h1
    · exact Or.inl h1
    · exact Or.inr (hxm m h1)

/-- C4 witness: the routing property evaluated on a concrete message that
produces one accepted fact ("remember: …", confidence 0.95) and one pending
preference ("i like …", confidence 0.7), against an empty store. -/
theorem extraction_confidence_routing_witness :
    (∀ e ∈ (extractMemories "remember: check the logs. i like tea").extractions,
      80 ≤ e.confidence)
    ∧ (∀ e ∈ (extractMemories
        "remember: check the logs. i like tea").needsConfirmation,
      e.confidence < 80)
    ∧ (∀ e ∈ (extractMemories "remember: check the logs. i like tea").extractions,
        ∃ m ∈ getPartition
            (processMessage "remember: check the logs. i like tea" "C" "U" "d"
              (fun _ => "id0") ⟨[], [], [], [], []⟩).2 (targetKind e.type),
          lowerStr m.content = lowerStr e.content)
    ∧ (processMessage "remember: check the logs. i like tea" "C" "U" "d"
        (fun _ => "id0") ⟨[], [], [], [], []⟩).1.2
        = (extractMemories "remember: check the logs. i like tea").needsConfirmation
    ∧ (∀ p, ∀ m ∈ getPartition
          (processMessage "remember: check the logs. i like tea" "C" "U" "d"
            (fun _ => "id0") ⟨[], [], [], [], []⟩).2 p,
        m ∈ getPartition ⟨[], [], [], [], []⟩ p
        ∨ ∃ e ∈ (extractMemories "remember: check the logs. i like tea").extractions,
            m.content = e.content ∧ m.type = e.type) :=
  extraction_confidence_routing "remember: check the logs. i like tea" "C" "U"
    "d" (fun _ => "id0") ⟨[], [], [], [], []⟩

/-! ## C5 -/

/-- C5: storing two extractions whose contents are equal case-insensitively
and whose kinds target the same partition leaves exactly one record with
that content in that partition (the second insert is suppressed as a
duplicate), provided the partition held no such record before. -/
theorem storeExtraction_dedup_single_record (e₁ e₂ : MemoryExtraction)
    (ch₁ uid₁ id₁ date₁ ch₂ uid₂ id₂ date₂ : String) (store : MemoryStore)
    (hkind : targetKind e₁.type = targetKind e₂.type)
    (hcontent : lowerStr e₁.content = lowerStr e₂.content)
    (hfresh : countLower (getPartition store (targetKind e₁.type)) e₁.content
      = 0) :
    countLower
      (getPartition
        ((storeExtraction e₂ ch₂ uid₂ id₂ date₂
          ((storeExtraction e₁ ch₁ uid₁ id₁ date₁ store).2)).2)
        (targetKind e₁.type)) e₁.content = 1 := by
  have hno : ∀ m ∈ getPartition store (targetKind e₁.type),
      (lowerStr m.content == lowerStr e₁.content) = false :=
    (countLower_eq_zero_iff _ _).mp hfresh
  have hstep1 : (storeExtraction e₁ ch₁ uid₁ id₁ date₁ store).2
      = setTargetArray store e₁.type
          (getPartition store (targetKind e₁.type)
            ++ [mkStoredMemory e₁ ch₁ uid₁ id₁ date₁]) :=
    storeExtraction_snd_not_dup e₁ ch₁ uid₁ id₁ date₁ store hno
  have hpart1 : getPartition ((storeExtraction e₁ ch₁ uid₁ id₁ date₁ store).2)
      (targetKind e₁.type)
      = getPartition store (targetKind e₁.type)
        ++ [mkStoredMemory e₁ ch₁ uid₁ id₁ date₁] := by
    rw [hstep1, getPartition_setTargetArray, if_pos rfl]
  have hcount1 : countLower
      (getPartition ((storeExtraction e₁ ch₁ uid₁ id₁ date₁ store).2)
        (targetKind e₁.type)) e₁.content = 1 := by
    rw [hpart1, countLower_append, hfresh]
    have hbeq : (lowerStr (mkStoredMemory e₁ ch₁ uid₁ id₁ date₁).content
        == lowerStr e₁.content) = true := by
      simp [mkStoredMemory]
    simp [countLower, hbeq]
  have hstep2 : (storeExtraction e₂ ch₂ uid₂ id₂ date₂
      ((storeExtraction e₁ ch₁ uid₁ id₁ date₁ store).2)).2
      = (storeExtraction e₁ ch₁ uid₁ id₁ date₁ store).2 := by
    apply storeExtraction_snd_dup
    refine ⟨mkStoredMemory e₁ ch₁ uid₁ id₁ date₁, ?_, ?_⟩
    · rw [← hkind, hpart1]
      simp
    · have : (mkStoredMemory e₁ ch₁ uid₁ id₁ date₁).content = e₁.content := rfl
      rw [this, hcontent]
      simp
  rw [hstep2, hcount1]

/-- C5 witness: a fact "Ship V1" and a preference "ship v1" (same facts
partition, case-insensitively equal contents) inserted into an empty store
leave exactly one matching record. -/
theorem storeExtraction_dedup_single_record_witness :
    targetKind MemoryType.fact = targetKind MemoryType.preference
    ∧ lowerStr "Ship V1" = lowerStr "ship v1"
    ∧ countLower (getPartition ⟨[], [], [], [], []⟩ (targetKind .fact))
        "Ship V1" = 0
    ∧ countLower
        (getPartition
          ((storeExtraction ⟨.preference, "ship v1", some .general, 85, "r2",
              none, false⟩ "C2" "U2" "id2" "d2"
            ((storeExtraction ⟨.fact, "Ship V1", some .general, 95, "r1",
                none, false⟩ "C1" "U1" "id1" "d1"
              ⟨[], [], [], [], []⟩).2)).2)
          (targetKind .fact)) "Ship V1" = 1 :=
  ⟨rfl, rfl, rfl,
    storeExtraction_dedup_single_record
      ⟨.fact, "Ship V1", some .general, 95, "r1", none, false⟩
      ⟨.preference, "ship v1", some .general, 85, "r2", none, false⟩
      "C1" "U1" "id1" "d1" "C2" "U2" "id2" "d2" ⟨[], [], [], [], []⟩
      rfl (by decide) rfl⟩

/-! ## C9 -/

/-- C9: kind "preference" has no partition of its own — `getTargetArray`
routes it to the facts partition (deduplicating against stored facts:
a preference whose content case-insensitively matches a stored fact is
suppressed), and the sync step maps it to the same target file and section
header as kind "fact". -/
theorem preference_maps_to_facts :
    (∀ store : MemoryStore, getTargetArray store .preference = store.facts
      ∧ getTargetArray store .preference = getTargetArray store .fact)
    ∧ targetKind .preference = targetKind .fact
    ∧ TYPE_TO_FILE .preference = TYPE_TO_FILE .fact
    ∧ TYPE_TO_SECTION .preference = TYPE_TO_SECTION .fact
    ∧ (∀ (e : MemoryExtraction) (ch uid id date : String)
        (store : MemoryStore), e.type = .preference →
        (∃ m ∈ store.facts, (lowerStr m.content == lowerStr e.content) = true) →
        (storeExtraction e ch uid id date store).2 = store) := by
  refine ⟨fun store => ⟨rfl, rfl⟩, rfl, rfl, rfl, ?_⟩
  intro e ch uid id date store htype hdup
  apply storeExtraction_snd_dup
  rw [htype]
  exact hdup

/-- C9 witness: a preference "tabs over spaces" deduplicates against a facts
partition already containing "Tabs over Spaces". -/
theorem preference_maps_to_facts_witness :
    ((⟨.preference, "tabs over spaces", some .general, 85, "r",
        none, false⟩ : MemoryExtraction).type = .preference)
    ∧ (∃ m ∈ [{ dupFixtureMemory with content := "Tabs over Spaces" }],
        (lowerStr m.content == lowerStr "tabs over spaces") = true)
    ∧ (storeExtraction
        ⟨.preference, "tabs over spaces", some .general, 85, "r", none, false⟩
        "C" "U" "id" "d"
        ⟨[], [{ dupFixtureMemory with content := "Tabs over Spaces" }],
          [], [], []⟩).2
      = ⟨[], [{ dupFixtureMemory with content := "Tabs over Spaces" }],
          [], [], []⟩ :=
  ⟨rfl, ⟨{ dupFixtureMemory with content := "Tabs over Spaces" },
      by simp, by decide⟩,
    preference_maps_to_facts.2.2.2.2
      ⟨.preference, "tabs over spaces", some .general, 85, "r", none, false⟩
      "C" "U" "id" "d"
      ⟨[], [{ dupFixtureMemory with content := "Tabs over Spaces" }],
        [], [], []⟩
      rfl
      ⟨{ dupFixtureMemory with content := "Tabs over Spaces" },
        by simp, by decide⟩⟩

/-! ## C10 -/

/-- C10: `processMessage` reports one `StoredMemory` record per accepted
extraction in its returned stored list — same contents and kinds in order,
for every initial store — even when duplicate suppression keeps a record out
of the persisted store: on the fixture whose facts partition already holds
"the sky is blue", the message "remember: The Sky is Blue" still yields a
one-element stored list while the store is left unchanged. -/
theorem processMessage_reports_per_extraction (msg ch uid date : String)
    (ids : Nat → String) (store : MemoryStore) :
    ((processMessage msg ch uid date ids store).1.1.map StoredMemory.content
        = (extractMemories msg).extractions.map MemoryExtraction.content)
    ∧ ((processMessage msg ch uid date ids store).1.1.map StoredMemory.type
        = (extractMemories msg).extractions.map MemoryExtraction.type)
    ∧ ((processMessage msg ch uid date ids store).1.1.length
        = (extractMemories msg).extractions.length)
    ∧ ((processMessage "remember: The Sky is Blue" "C" "U" "d"
          (fun _ => "id0") dupFixtureStore).1.1.length = 1
      ∧ (processMessage "remember: The Sky is Blue" "C" "U" "d"
          (fun _ => "id0") dupFixtureStore).2 = dupFixtureStore) := by
  have hc := storeAll_fst_content ch uid date ids
    (extractMemories msg).extractions 0 store
  have ht := storeAll_fst_type ch uid date ids
    (extractMemories msg).extractions 0 store
  refine ⟨hc, ht, ?_, by decide, by decide⟩
  have := congrArg List.length hc
  simpa using this

/-! ## C7 -/

theorem TYPE_TO_maps_nonempty (t : MemoryType) :
    ¬(TYPE_TO_FILE t = "" ∨ TYPE_TO_SECTION t = "") := by
  cases t <;> decide

theorem syncOutcomes_length (ms : List StoredMemory) (fs : TelosFS) :
    (syncOutcomes ms fs).length = ms.length := by
  induction ms generalizing fs with
  | nil => rfl
  | cons m rest ih => simp [syncOutcomes, ih]

theorem filter_bool_length (l : List Bool) :
    (l.filter (fun b => b)).length + (l.filter (fun b => !b)).length
      = l.length := by
  induction l with
  | nil => rfl
  | cons b rest ih => cases b <;> simp [List.filter] <;> omega

theorem zip_filter_snd_length (ms : List StoredMemory) (out : List Bool)
    (h : out.length = ms.length) :
    ((ms.zip out).filter (fun p => p.2)).length
        = (out.filter (fun b => b)).length
    ∧ ((ms.zip out).filter (fun p => !p.2)).length
        = (out.filter (fun b => !b)).length := by
  induction ms generalizing out with
  | nil =>
    have : out = [] := List.length_eq_zero.mp (by simpa using h)
    simp [this]
  | cons m rest ih =>
    cases out with
    | nil => simp at h
    | cons b obs =>
      have hih := ih obs (by simpa using h)
      cases b <;> rw [List.zip_cons_cons] <;>
        simp [List.filter_cons, hih.1, hih.2]

theorem markAsSynced_nil (store : MemoryStore) (now : String) :
    markAsSynced store [] now = store := by
  cases store
  simp [markAsSynced, markInArray]

theorem syncLoop_spec (ms : List StoredMemory) (fs : TelosFS)
    (res : TELOSSyncResult) (ids : List String) :
    (syncLoop ms fs res ids).1.synced
        = res.synced + ((syncOutcomes ms fs).filter (fun b => b)).length
    ∧ (syncLoop ms fs res ids).1.skipped = res.skipped
    ∧ (syncLoop ms fs res ids).1.errors
        = res.errors ++ ((ms.zip (syncOutcomes ms fs)).filter
            (fun p => !p.2)).map (fun p => syncErrorMsg p.1)
    ∧ (syncLoop ms fs res ids).2.2
        = ids ++ ((ms.zip (syncOutcomes ms fs)).filter (fun p => p.2)).map
            (fun p => p.1.id) := by
  induction ms generalizing fs res ids with
  | nil => simp [syncLoop, syncOutcomes]
  | cons m rest ih =>
    have hloop : syncLoop (m :: rest) fs res ids
        = (if (appendToTelosFile fs (TYPE_TO_FILE m.type)
              (TYPE_TO_SECTION m.type) (formatMemoryForTelos m)).1 then
            syncLoop rest (appendToTelosFile fs (TYPE_TO_FILE m.type)
                (TYPE_TO_SECTION m.type) (formatMemoryForTelos m)).2
              { res with synced := res.synced + 1 } (ids ++ [m.id])
          else
            syncLoop rest (appendToTelosFile fs (TYPE_TO_FILE m.type)
                (TYPE_TO_SECTION m.type) (formatMemoryForTelos m)).2
              { res with errors := res.errors ++ [syncErrorMsg m] } ids) := by
      simp only [syncLoop, if_neg (TYPE_TO_maps_nonempty m.type)]
    have houtc : syncOutcomes (m :: rest) fs
        = (appendToTelosFile fs (TYPE_TO_FILE m.type) (TYPE_TO_SECTION m.type)
            (formatMemoryForTelos m)).1
          :: syncOutcomes rest (appendToTelosFile fs (TYPE_TO_FILE m.type)
            (TYPE_TO_SECTION m.type) (formatMemoryForTelos m)).2 := rfl
    rw [hloop, houtc]
    cases hb : (appendToTelosFile fs (TYPE_TO_FILE m.type)
        (TYPE_TO_SECTION m.type) (formatMemoryForTelos m)).1 with
    | true =>
      obtain ⟨h1, h2, h3, h4⟩ := ih (appendToTelosFile fs (TYPE_TO_FILE m.type)
          (TYPE_TO_SECTION m.type) (formatMemoryForTelos m)).2
        { res with synced := res.synced + 1 } (ids ++ [m.id])
      refine ⟨?_, ?_, ?_, ?_⟩
      · rw [if_pos rfl, h1]
        simp [List.filter_cons]
        omega
      · rw [if_pos rfl, h2]
      · rw [if_pos rfl, h3, List.zip_cons_cons]
        simp [List.filter_cons]
      · rw [if_pos rfl, h4, List.zip_cons_cons]
        simp [List.filter_cons, List.append_assoc]
    | false =>
      obtain ⟨h1, h2, h3, h4⟩ := ih (appendToTelosFile fs (TYPE_TO_FILE m.type)
          (TYPE_TO_SECTION m.type) (formatMemoryForTelos m)).2
        { res with errors := res.errors ++ [syncErrorMsg m] } ids
      refine ⟨?_, ?_, ?_, ?_⟩
      · rw [if_neg (by simp), h1]
        simp [List.filter_cons]
      · rw [if_neg (by simp), h2]
      · rw [if_neg (by simp), h3, List.zip_cons_cons]
        simp [List.filter_cons, List.append_assoc]
      · rw [if_neg (by simp), h4, List.zip_cons_cons]
        simp [List.filter_cons]

/-- C7: with the upgrade flag present, a batch sync never aborts on a missing
target file or a missing section header — every item is processed, each
failed append contributes exactly one per-item entry to the returned errors
list (in batch order), nothing is counted skipped, the counts add up to the
batch size, and exactly the successfully written memories' ids are marked as
synced in the store. Appends fail precisely per item: a missing file or a
missing section header makes `appendToTelosFile` return `false` and leave
the documents untouched. -/
theorem syncToTelos_per_item (ms : List StoredMemory) (fs : TelosFS)
    (store : MemoryStore) (now : String) (hflag : fs.upgradeFlag = true) :
    ((syncToTelos ms fs store now).1.synced
        = ((syncOutcomes ms fs).filter (fun b => b)).length)
    ∧ ((syncToTelos ms fs store now).1.errors
        = ((ms.zip (syncOutcomes ms fs)).filter (fun p => !p.2)).map
            (fun p => syncErrorMsg p.1))
    ∧ ((syncToTelos ms fs store now).1.skipped = 0)
    ∧ ((syncToTelos ms fs store now).1.synced
        + (syncToTelos ms fs store now).1.errors.length = ms.length)
    ∧ ((syncToTelos ms fs store now).2.2
        = markAsSynced store
            (((ms.zip (syncOutcomes ms fs)).filter (fun p => p.2)).map
              (fun p => p.1.id)) now)
    ∧ (∀ filename sectionHeader entry, lookupFile fs.files filename = none →
        appendToTelosFile fs filename sectionHeader entry = (false, fs))
    ∧ (∀ filename sectionHeader entry content,
        lookupFile fs.files filename = some content →
        idxOfSub sectionHeader.data content.data = none →
        appendToTelosFile fs filename sectionHeader entry = (false, fs)) := by
  have happend1 : ∀ filename sectionHeader entry,
      lookupFile fs.files filename = none →
      appendToTelosFile fs filename sectionHeader entry = (false, fs) := by
    intro filename sectionHeader entry h
    simp [appendToTelosFile, h]
  have happend2 : ∀ filename sectionHeader entry content,
      lookupFile fs.files filename = some content →
      idxOfSub sectionHeader.data content.data = none →
      appendToTelosFile fs filename sectionHeader entry = (false, fs) := by
    intro filename sectionHeader entry content h1 h2
    simp [appendToTelosFile, h1, h2]
  have hzip := zip_filter_snd_length ms (syncOutcomes ms fs)
    (syncOutcomes_length ms fs)
  by_cases hempty : ms = []
  · subst hempty
    have hval : syncToTelos [] fs store now
        = ({ synced := 0, skipped := 0, errors := [] }, fs, store) := by
      simp [syncToTelos, hflag]
    rw [hval]
    refine ⟨by simp [syncOutcomes], by simp [syncOutcomes], rfl, rfl,
      by simp [syncOutcomes, markAsSynced_nil], happend1, happend2⟩
  · have hne : ms.isEmpty = false := by
      cases ms with
      | nil => exact absurd rfl hempty
      | cons a b => rfl
    have hsync : syncToTelos ms fs store now
        = (let r := syncLoop ms fs ⟨0, 0, []⟩ []
          (r.1, r.2.1, if r.2.2 ≠ [] then markAsSynced store r.2.2 now
            else store)) := by
      simp [syncToTelos, hflag, hne]
    obtain ⟨h1, h2, h3, h4⟩ := syncLoop_spec ms fs ⟨0, 0, []⟩ []
    rw [hsync]
    simp only []
    refine ⟨by rw [h1]; simp, by rw [h3]; simp, by rw [h2], ?_, ?_, happend1,
      happend2⟩
    · rw [h1, h3]
      simp only [List.length_append, List.length_map, Nat.zero_add,
        List.length_nil]
      rw [hzip.2]
      have := filter_bool_length (syncOutcomes ms fs)
      have hlen := syncOutcomes_length ms fs
      omega
    · rw [h4]
      by_cases hids : ((ms.zip (syncOutcomes ms fs)).filter
          (fun p => p.2)).map (fun p => p.1.id) = []
      · rw [hids]
        simp [markAsSynced_nil]
      · simp only [List.nil_append]
        rw [if_pos (by simpa using hids)]

/-- C7 witness: a two-memory batch — a goal whose target file and section
exist, then an idea whose target file is missing — synced against a TELOS
directory holding only GOALS.md: the batch completes with one success and
one per-item error, and exactly the goal is marked synced. -/
theorem syncToTelos_per_item_witness :
    (⟨true, [("GOALS.md", "# T\n## Active Goals\n\n- old\n")]⟩ : TelosFS).upgradeFlag
      = true
    ∧ (syncToTelos
        [{ dupFixtureMemory with id := "g1", type := .goal, content := "ship" },
          { dupFixtureMemory with id := "i1", type := .idea, content := "an idea" }]
        ⟨true, [("GOALS.md", "# T\n## Active Goals\n\n- old\n")]⟩
        ⟨[{ dupFixtureMemory with id := "g1", type := .goal, content := "ship" }],
          [], [],
          [{ dupFixtureMemory with id := "i1", type := .idea, content := "an idea" }],
          []⟩ "2025-01-01").1.synced = 1
    ∧ (syncToTelos
        [{ dupFixtureMemory with id := "g1", type := .goal, content := "ship" },
          { dupFixtureMemory with id := "i1", type := .idea, content := "an idea" }]
        ⟨true, [("GOALS.md", "# T\n## Active Goals\n\n- old\n")]⟩
        ⟨[{ dupFixtureMemory with id := "g1", type := .goal, content := "ship" }],
          [], [],
          [{ dupFixtureMemory with id := "i1", type := .idea, content := "an idea" }],
          []⟩ "2025-01-01").1.errors = ["Failed to sync: an idea..."]
    ∧ (syncToTelos
        [{ dupFixtureMemory with id := "g1", type := .goal, content := "ship" },
          { dupFixtureMemory with id := "i1", type := .idea, content := "an idea" }]
        ⟨true, [("GOALS.md", "# T\n## Active Goals\n\n- old\n")]⟩
        ⟨[{ dupFixtureMemory with id := "g1", type := .goal, content := "ship" }],
          [], [],
          [{ dupFixtureMemory with id := "i1", type := .idea, content := "an idea" }],
          []⟩ "2025-01-01").2.2
      = markAsSynced
        ⟨[{ dupFixtureMemory with id := "g1", type := .goal, content := "ship" }],
          [], [],
          [{ dupFixtureMemory with id := "i1", type := .idea, content := "an idea" }],
          []⟩ ["g1"] "2025-01-01" := by
  have h := syncToTelos_per_item
    [{ dupFixtureMemory with id := "g1", type := .goal, content := "ship" },
      { dupFixtureMemory with id := "i1", type := .idea, content := "an idea" }]
    ⟨true, [("GOALS.md", "# T\n## Active Goals\n\n- old\n")]⟩
    ⟨[{ dupFixtureMemory with id := "g1", type := .goal, content := "ship" }],
      [], [],
      [{ dupFixtureMemory with id := "i1", type := .idea, content := "an idea" }],
      []⟩ "2025-01-01" rfl
  refine ⟨rfl, h.1.trans (by decide), h.2.1.trans (by decide),
    h.2.2.2.2.1.trans (by decide)⟩

end PaiSlack
